import Mathlib

/-!
Shallow embedding of the expression-processing core of calculator.cpp
(lexer `tokenize`, shunting-yard converter, postfix evaluator, and the
composed `evaluate` pipeline), together with theorems settling the frozen
claims about it.

Modelling conventions:
* The C++ `double` domain is modelled by `ℚ`.  Every claim's arithmetic
  (small-integer `+ - * / ^`, `sqrt` of a perfect square, six-decimal
  constant rendering) is exact in IEEE-754 binary64, so the rational model
  agrees with the C++ values there.  Binary rounding of decimal literals is
  abstracted to the exact decimal value.
* `std::stack.top()` applied to an empty stack is undefined behaviour in the
  source; the model surfaces it as the explicit failure `EvalErr.stackUnderflow`
  (distinct from every `runtime_error` the source actually throws).
* The seven unary math transforms are a parameter (`MathFns`): no claim
  depends on the value of a transcendental transform, and `sqrt` is
  instantiated exactly on perfect squares where needed.
-/

namespace Calculator

/-- enum TokenType of the source. -/
inductive TokenType where
  | NUMBER
  | OPERATOR
  | FUNCTION
  | LEFT_PAREN
  | RIGHT_PAREN
deriving DecidableEq, Repr

/-- struct Token: the literal text of the token and its kind. -/
structure Token where
  text : String
  type : TokenType
deriving DecidableEq, Repr

/-- The precedence table opPrec.  `std::map::at` raises `std::out_of_range`
for a symbol outside the table (the spec calls such a lookup a programming
error, and the lexer emits only table symbols as OPERATOR); the model
totalizes the lookup with 0, and theorems quantifying over arbitrary token
lists carry a side condition keeping OPERATOR texts inside the table. -/
def opPrec (s : String) : ℕ :=
  if s = "^" ∨ s = "**" then 4
  else if s = "*" ∨ s = "/" then 3
  else if s = "+" ∨ s = "-" then 2
  else 0

/-- The associativity table opRight: `opRight.count(s)` is 1 exactly on the
two registered right-associative symbols. -/
def opRight (s : String) : Bool :=
  s == "^" || s == "**"

/-- The function registry. -/
def functions : List String := ["sin", "cos", "tan", "sqrt", "log", "ln", "exp"]

/-- The exact rational value of the IEEE-754 binary64 constant M_PI. -/
def piDbl : ℚ := 884279719003555 / 281474976710656

/-- The exact rational value of the IEEE-754 binary64 constant M_E. -/
def eDbl : ℚ := 6121026514868073 / 2251799813685248

/-- The constant registry. -/
def constants : List (String × ℚ) := [("pi", piDbl), ("e", eDbl)]

/-- Decimal rendering of n / 10^6 with exactly six fraction digits. -/
def sixFrac (n : ℕ) : String :=
  toString (n / 1000000) ++ "." ++
    String.mk (List.replicate (6 - (toString (n % 1000000)).length) '0') ++
    toString (n % 1000000)

/-- Models std::to_string(double), i.e. sprintf "%f": the value rendered with
exactly six fraction digits, rounded to nearest.  Defined for nonnegative
arguments, which covers both entries of the constants table. -/
def toString6 (q : ℚ) : String :=
  sixFrac (Int.floor (q * 1000000 + 1 / 2)).toNat

/-- C isdigit on the ASCII inputs the program handles. -/
def isDigitC (c : Char) : Bool := c.isDigit

/-- C isalpha on the ASCII inputs the program handles. -/
def isAlphaC (c : Char) : Bool := c.isAlpha

/-- C isspace: space, \t, \n, \v, \f, \r. -/
def isSpaceC (c : Char) : Bool :=
  c == ' ' || c == '\t' || c == '\n' || c == '\x0b' || c == '\x0c' || c == '\r'

/-- The character class of the lexer's number scan loop: digits and dots. -/
def numChar (c : Char) : Bool := isDigitC c || c == '.'

/-- The number scan of tokenize: a maximal run of digits and dots, then an
exponent part whose marker (and optional sign) is consumed even when no
digit follows, exactly as in the source.  Returns the token's characters and
the remaining input. -/
def scanNumber (l : List Char) : List Char × List Char :=
  match l.dropWhile numChar with
  | e :: r2 =>
    if e == 'e' || e == 'E' then
      match r2 with
      | s :: r3 =>
        if s == '+' || s == '-' then
          (l.takeWhile numChar ++ e :: s :: r3.takeWhile isDigitC, r3.dropWhile isDigitC)
        else (l.takeWhile numChar ++ e :: r2.takeWhile isDigitC, r2.dropWhile isDigitC)
      | [] => (l.takeWhile numChar ++ [e], [])
    else (l.takeWhile numChar, e :: r2)
  | [] => (l.takeWhile numChar, [])

/-- The lexer's two `throw runtime_error` failures. -/
inductive LexErr where
  | unknownName (name : String)
  | invalidCharacter (c : Char)
deriving DecidableEq, Repr

/-- The tokenizer loop of tokenize, over the character list of the input.
Structural recursion on a fuel argument keeps the definition reducible by
the kernel; every iteration consumes at least one character
(scanNumber_rest_le and the dropWhile bounds), so the fuel passed by
tokenize, length + 1, is never exhausted and the fuel-0 branch is dead. -/
def tokenizeAux (fuel : ℕ) (l : List Char) : Except LexErr (List Token) :=
  match fuel, l with
  | _, [] => .ok []
  | 0, _ :: _ => .ok []
  | f + 1, c :: cs =>
    if isSpaceC c then tokenizeAux f cs
    else if numChar c then
      match tokenizeAux f (scanNumber (c :: cs)).2 with
      | .ok ts => .ok (⟨String.mk (scanNumber (c :: cs)).1, .NUMBER⟩ :: ts)
      | .error err => .error err
    else if c == '(' then
      match tokenizeAux f cs with
      | .ok ts => .ok (⟨"(", .LEFT_PAREN⟩ :: ts)
      | .error err => .error err
    else if c == ')' then
      match tokenizeAux f cs with
      | .ok ts => .ok (⟨")", .RIGHT_PAREN⟩ :: ts)
      | .error err => .error err
    else if c == '*' && cs.head? == some '*' then
      match tokenizeAux f cs.tail with
      | .ok ts => .ok (⟨"**", .OPERATOR⟩ :: ts)
      | .error err => .error err
    else if c == '+' || c == '-' || c == '*' || c == '/' || c == '^' then
      match tokenizeAux f cs with
      | .ok ts => .ok (⟨String.mk [c], .OPERATOR⟩ :: ts)
      | .error err => .error err
    else if isAlphaC c then
      let name := String.mk ((c :: cs).takeWhile isAlphaC)
      match tokenizeAux f ((c :: cs).dropWhile isAlphaC) with
      | .ok ts =>
        if functions.contains name then .ok (⟨name, .FUNCTION⟩ :: ts)
        else
          match constants.lookup name with
          | some v => .ok (⟨toString6 v, .NUMBER⟩ :: ts)
          | none => .error (.unknownName name)
      | .error err =>
        if functions.contains name then .error err
        else
          match constants.lookup name with
          | some _ => .error err
          | none => .error (.unknownName name)
    else .error (.invalidCharacter c)

/-- vector(Token) tokenize(const string&). -/
def tokenize (s : String) : Except LexErr (List Token) :=
  tokenizeAux (s.data.length + 1) s.data

/-- Front match of the regex alternative `(\d+(\.\d*)?|\.\d+)`: the remaining
characters on success. -/
def mantissaRest (l : List Char) : Option (List Char) :=
  match l.takeWhile isDigitC, l.dropWhile isDigitC with
  | [], '.' :: r2 =>
    if (r2.takeWhile isDigitC).isEmpty then none else some (r2.dropWhile isDigitC)
  | [], _ => none
  | _ :: _, '.' :: r2 => some (r2.dropWhile isDigitC)
  | _ :: _, r => some r

/-- Match of the regex tail `([eE][+-]?\d+)?$`. -/
def expTailOk (l : List Char) : Bool :=
  match l with
  | [] => true
  | e :: r =>
    if e == 'e' || e == 'E' then
      let r2 := match r with
        | s :: r3 => if s == '+' || s == '-' then r3 else r
        | [] => r
      !(r2.takeWhile isDigitC).isEmpty && (r2.dropWhile isDigitC).isEmpty
    else false

/-- bool isNumber(const string&): the anchored regex
`[+-]?(\d+(\.\d*)?|\.\d+)([eE][+-]?\d+)?` as a decision procedure (the
deterministic greedy match is equivalent for this anchored expression). -/
def isNumber (s : String) : Bool :=
  let l := match s.data with
    | c :: r => if c == '+' || c == '-' then r else s.data
    | [] => []
  match mantissaRest l with
  | some r => expTailOk r
  | none => false

/-- The pop condition of the while loop in the converter's OPERATOR case:
pop `top` first when it is a function, or an operator of strictly higher
precedence, or of equal precedence with the incoming token not registered
right-associative. -/
def opPops (tok top : Token) : Bool :=
  decide (top.type = TokenType.FUNCTION ∨
    (top.type = TokenType.OPERATOR ∧
      (opPrec tok.text < opPrec top.text ∨
        (opPrec top.text = opPrec tok.text ∧ opRight tok.text = false))))

/-- The pop condition of the while loop in the converter's RIGHT_PAREN case:
pop until a left parenthesis surfaces. -/
def notLP (t : Token) : Bool := decide (t.type ≠ TokenType.LEFT_PAREN)

/-- One token of the conversion loop.  State: (output sequence, operator
stack with its top at the head).  The two while loops of the source pop a
maximal prefix of the stack, i.e. a takeWhile/dropWhile split. -/
def i2pStep (st : List Token × List Token) (tok : Token) : List Token × List Token :=
  match tok.type with
  | .NUMBER => (st.1 ++ [tok], st.2)
  | .FUNCTION => (st.1, tok :: st.2)
  | .OPERATOR =>
    (st.1 ++ st.2.takeWhile (opPops tok), tok :: st.2.dropWhile (opPops tok))
  | .LEFT_PAREN => (st.1, tok :: st.2)
  | .RIGHT_PAREN =>
    match st.2.dropWhile notLP with
    | [] => (st.1 ++ st.2.takeWhile notLP, [])
    | [_] => (st.1 ++ st.2.takeWhile notLP, [])
    | _ :: f :: s3 =>
      if f.type = TokenType.FUNCTION then (st.1 ++ st.2.takeWhile notLP ++ [f], s3)
      else (st.1 ++ st.2.takeWhile notLP, f :: s3)

/-- vector(Token) infixToPostfix(const vector(Token)&): fold the conversion
step over the input, then drain the remaining operator stack (popped
top-first) into the output. -/
def toPostfix (ts : List Token) : List Token :=
  ((ts.foldl i2pStep ([], [])).1) ++ ((ts.foldl i2pStep ([], [])).2)

/-- The evaluator's failure modes.  divideByZero and invalidExpression are
the source's two runtime_error throws; stackUnderflow marks st.top() applied
to an empty std::stack (undefined behaviour in the source, surfaced as an
explicit failure by the model); noConversion marks std::stod rejecting the
token text. -/
inductive EvalErr where
  | divideByZero
  | invalidExpression
  | stackUnderflow
  | noConversion
deriving DecidableEq, Repr

/-- The seven unary transforms applied by the evaluator, as a parameter: no
claim depends on the value of a transcendental transform. -/
structure MathFns where
  sin : ℚ → ℚ
  cos : ℚ → ℚ
  tan : ℚ → ℚ
  sqrt : ℚ → ℚ
  log10 : ℚ → ℚ
  ln : ℚ → ℚ
  exp : ℚ → ℚ

/-- Models pow(a, b) at integer exponents, where the double computation is
exact for the small inputs the claims use; non-integer exponents lie outside
the rational model. -/
def powQ (a b : ℚ) : ℚ := if b.den = 1 then a ^ b.num else 0

/-- Value of a digit run. -/
def digitsVal (l : List Char) : ℕ := l.foldl (fun a c => 10 * a + (c.toNat - 48)) 0

/-- Exponent part of the strtod grammar: it contributes only when at least
one digit follows the optional sign (otherwise strtod backtracks). -/
def expVal (l : List Char) : ℤ :=
  match l with
  | e :: r =>
    if e == 'e' || e == 'E' then
      match r with
      | '+' :: r2 =>
        if (r2.takeWhile isDigitC).isEmpty then 0 else (digitsVal (r2.takeWhile isDigitC) : ℤ)
      | '-' :: r2 =>
        if (r2.takeWhile isDigitC).isEmpty then 0 else -(digitsVal (r2.takeWhile isDigitC) : ℤ)
      | _ =>
        if (r.takeWhile isDigitC).isEmpty then 0 else (digitsVal (r.takeWhile isDigitC) : ℤ)
    else 0
  | [] => 0

/-- The scanning half of the stod model: sign, integer-part digits,
fraction digits, fraction length, and exponent of the longest valid numeric
prefix; none when no digit can be read (stod then raises
invalid_argument). -/
def parseParts (s : String) : Option (Bool × ℕ × ℕ × ℕ × ℤ) :=
  let l := match s.data with
    | c :: r => if c == '+' || c == '-' then r else s.data
    | [] => []
  let neg : Bool := match s.data with
    | c :: _ => c == '-'
    | [] => false
  let ip := l.takeWhile isDigitC
  let r2 := l.dropWhile isDigitC
  let fp := match r2 with
    | '.' :: r3 => r3.takeWhile isDigitC
    | _ => []
  let r4 := match r2 with
    | '.' :: r3 => r3.dropWhile isDigitC
    | _ => r2
  if ip.isEmpty && fp.isEmpty then none
  else some (neg, digitsVal ip, digitsVal fp, fp.length, expVal r4)

/-- Models std::stod: the value of the longest valid numeric prefix of the
text; decimal-to-binary rounding is abstracted to the exact decimal value. -/
def parseNum (s : String) : Option ℚ :=
  match parseParts s with
  | some (neg, ip, fp, fl, ex) =>
    some ((if neg then -1 else 1) * ((ip : ℚ) + (fp : ℚ) / 10 ^ fl) * 10 ^ ex)
  | none => none

/-- One token of the evaluation loop of evalPostfix.  The source's if/else-if
chains have no final else: an unrecognized FUNCTION name pops its operand and
pushes nothing, an unrecognized OPERATOR pops both operands and pushes
nothing, and parenthesis tokens are skipped. -/
def evalStep (fns : MathFns) (st : List ℚ) (tok : Token) : Except EvalErr (List ℚ) :=
  match tok.type with
  | .NUMBER =>
    match parseNum tok.text with
    | some v => .ok (v :: st)
    | none => .error .noConversion
  | .FUNCTION =>
    match st with
    | [] => .error .stackUnderflow
    | v :: rest =>
      if tok.text = "sin" then .ok (fns.sin v :: rest)
      else if tok.text = "cos" then .ok (fns.cos v :: rest)
      else if tok.text = "tan" then .ok (fns.tan v :: rest)
      else if tok.text = "sqrt" then .ok (fns.sqrt v :: rest)
      else if tok.text = "log" then .ok (fns.log10 v :: rest)
      else if tok.text = "ln" then .ok (fns.ln v :: rest)
      else if tok.text = "exp" then .ok (fns.exp v :: rest)
      else .ok rest
  | .OPERATOR =>
    match st with
    | b :: a :: rest =>
      if tok.text = "+" then .ok ((a + b) :: rest)
      else if tok.text = "-" then .ok ((a - b) :: rest)
      else if tok.text = "*" then .ok ((a * b) :: rest)
      else if tok.text = "/" then
        if b = 0 then .error .divideByZero else .ok ((a / b) :: rest)
      else if tok.text = "^" ∨ tok.text = "**" then .ok (powQ a b :: rest)
      else .ok rest
    | _ => .error .stackUnderflow
  | .LEFT_PAREN => .ok st
  | .RIGHT_PAREN => .ok st

/-- double evalPostfix(const vector(Token)&): fold the evaluation step over
the postfix sequence from an empty stack; exactly one residual value must
remain ("Invalid expression" otherwise). -/
def evalPostfix (fns : MathFns) (pf : List Token) : Except EvalErr ℚ :=
  match pf.foldlM (evalStep fns) [] with
  | .ok [v] => .ok v
  | .ok _ => .error .invalidExpression
  | .error err => .error err

/-- The engine's error sum: a lexer failure or an evaluator failure. -/
inductive EngineErr where
  | lex (err : LexErr)
  | eval (err : EvalErr)
deriving DecidableEq, Repr

/-- The composed pipeline the REPL calls per input line:
tokenize, convert to postfix, evaluate. -/
def evaluate (fns : MathFns) (s : String) : Except EngineErr ℚ :=
  match tokenize s with
  | .error err => .error (.lex err)
  | .ok ts =>
    match evalPostfix fns (toPostfix ts) with
    | .ok v => .ok v
    | .error err => .error (.eval err)

/-- Exact square root for nonnegative perfect squares (matching the double
result there), the only points where a claim consults sqrt. -/
def ratSqrt (q : ℚ) : ℚ := (Nat.sqrt q.num.toNat : ℚ) / (Nat.sqrt q.den : ℚ)

/-- A concrete transform table: sqrt is exact on perfect squares; the six
transcendental transforms are placeholder functions, consulted by no claim. -/
def mathDefault : MathFns :=
  ⟨fun _ => 0, fun _ => 0, fun _ => 0, ratSqrt, fun _ => 0, fun _ => 0, fun _ => 0⟩

/-- Balanced-parenthesis check on token sequences: the scanning depth never
goes negative and ends at zero. -/
def parenDepthOk (d : ℕ) (ts : List Token) : Bool :=
  match ts with
  | [] => d == 0
  | t :: rest =>
    match t.type with
    | .LEFT_PAREN => parenDepthOk (d + 1) rest
    | .RIGHT_PAREN => if d == 0 then false else parenDepthOk (d - 1) rest
    | _ => parenDepthOk d rest

/-- Number of LEFT_PAREN tokens in a list. -/
def lpCount (l : List Token) : ℕ :=
  l.countP fun t => decide (t.type = TokenType.LEFT_PAREN)

/-- Every OPERATOR token's text lies in the precedence table: the only
inputs on which the source's map::at lookups return instead of raising
std::out_of_range (the lexer emits only such OPERATOR tokens). -/
def knownOps (ts : List Token) : Prop :=
  ∀ t ∈ ts, t.type = TokenType.OPERATOR → opPrec t.text ≠ 0

/-- Operator-stack members are functions, operators or left parentheses. -/
def stackOk (ops : List Token) : Prop :=
  ∀ t ∈ ops, t.type = TokenType.FUNCTION ∨ t.type = TokenType.OPERATOR ∨
    t.type = TokenType.LEFT_PAREN

/-- Output members are numbers, operators or functions. -/
def outOk (out : List Token) : Prop :=
  ∀ t ∈ out, t.type = TokenType.NUMBER ∨ t.type = TokenType.OPERATOR ∨
    t.type = TokenType.FUNCTION

/-- Pointwise replacement of Operator tokens ** by ^: each position either
keeps its token or swaps an Operator ** for Operator ^. -/
def starEquiv (t t2 : Token) : Prop :=
  t2 = t ∨ (t.type = TokenType.OPERATOR ∧ t.text = "**" ∧
    t2 = ⟨"^", TokenType.OPERATOR⟩)

/-! ## Lemmas documenting the adequacy of the tokenizer fuel -/

theorem length_dropWhile_num_le (l : List Char) :
    (l.dropWhile numChar).length ≤ l.length :=
  (List.dropWhile_sublist numChar).length_le

theorem scanNumber_rest_le (l : List Char) :
    (scanNumber l).2.length ≤ (l.dropWhile numChar).length := by
  have h3 : ∀ (m : List Char), (m.dropWhile isDigitC).length ≤ m.length :=
    fun m => (List.dropWhile_sublist isDigitC).length_le
  unfold scanNumber
  cases hr : l.dropWhile numChar with
  | nil => simp
  | cons e r2 =>
    cases he : (e == 'e' || e == 'E') with
    | false => simp [he]
    | true =>
      cases r2 with
      | nil => simp [he]
      | cons s r3 =>
        cases hs : (s == '+' || s == '-') with
        | false =>
          have := h3 (s :: r3)
          simp only [he, hs, if_true, if_false, Bool.false_eq_true, List.length_cons,
            List.length_nil] at this ⊢
          omega
        | true =>
          have := h3 r3
          simp only [he, hs, if_true, List.length_cons, List.length_nil] at this ⊢
          omega


/-! ## Helper lemmas for running the pipeline on concrete inputs -/

theorem evaluate_ok (fns : MathFns) (s : String) (ts : List Token) (v : ℚ)
    (h1 : tokenize s = .ok ts) (h2 : evalPostfix fns (toPostfix ts) = .ok v) :
    evaluate fns s = .ok v := by
  rw [evaluate, h1]
  show (match evalPostfix fns (toPostfix ts) with
    | Except.ok v => Except.ok v
    | Except.error err => Except.error (EngineErr.eval err)) = Except.ok v
  rw [h2]

theorem evaluate_evalError (fns : MathFns) (s : String) (ts : List Token) (err : EvalErr)
    (h1 : tokenize s = .ok ts) (h2 : evalPostfix fns (toPostfix ts) = .error err) :
    evaluate fns s = .error (.eval err) := by
  rw [evaluate, h1]
  show (match evalPostfix fns (toPostfix ts) with
    | Except.ok v => Except.ok v
    | Except.error err => Except.error (EngineErr.eval err)) = Except.error (EngineErr.eval err)
  rw [h2]

theorem foldl_eval_cons (fns : MathFns) {st st2 : List ℚ} {t : Token} (rest : List Token)
    (h : evalStep fns st t = .ok st2) :
    List.foldlM (evalStep fns) st (t :: rest) = List.foldlM (evalStep fns) st2 rest := by
  rw [List.foldlM_cons, h]
  rfl

theorem foldl_eval_error (fns : MathFns) {st : List ℚ} {t : Token} (rest : List Token)
    {err : EvalErr} (h : evalStep fns st t = .error err) :
    List.foldlM (evalStep fns) st (t :: rest) = .error err := by
  rw [List.foldlM_cons, h]
  rfl

theorem evalStep_num (fns : MathFns) (st : List ℚ) {s : String} {v : ℚ}
    (h : parseNum s = some v) :
    evalStep fns st ⟨s, .NUMBER⟩ = .ok (v :: st) := by
  simp only [evalStep, h]

theorem evalPostfix_of_foldl (fns : MathFns) {pf : List Token} {v : ℚ}
    (h : List.foldlM (evalStep fns) [] pf = .ok [v]) :
    evalPostfix fns pf = .ok v := by
  rw [evalPostfix, h]

theorem evalPostfix_of_foldl_error (fns : MathFns) {pf : List Token} {err : EvalErr}
    (h : List.foldlM (evalStep fns) [] pf = .error err) :
    evalPostfix fns pf = .error err := by
  rw [evalPostfix, h]

/-! Concrete values of the stod model on the literals the claims use. -/

theorem pn0 : parseNum "0" = some 0 := by
  rw [parseNum, show parseParts "0" = some (false, 0, 0, 0, 0) from by decide]
  norm_num

theorem pn1 : parseNum "1" = some 1 := by
  rw [parseNum, show parseParts "1" = some (false, 1, 0, 0, 0) from by decide]
  norm_num

theorem pn2 : parseNum "2" = some 2 := by
  rw [parseNum, show parseParts "2" = some (false, 2, 0, 0, 0) from by decide]
  norm_num

theorem pn3 : parseNum "3" = some 3 := by
  rw [parseNum, show parseParts "3" = some (false, 3, 0, 0, 0) from by decide]
  norm_num

theorem pn4 : parseNum "4" = some 4 := by
  rw [parseNum, show parseParts "4" = some (false, 4, 0, 0, 0) from by decide]
  norm_num

theorem pn5 : parseNum "5" = some 5 := by
  rw [parseNum, show parseParts "5" = some (false, 5, 0, 0, 0) from by decide]
  norm_num

theorem pn10 : parseNum "10" = some 10 := by
  rw [parseNum, show parseParts "10" = some (false, 10, 0, 0, 0) from by decide]
  norm_num

theorem pn16 : parseNum "16" = some 16 := by
  rw [parseNum, show parseParts "16" = some (false, 16, 0, 0, 0) from by decide]
  norm_num

theorem pnPi : parseNum "3.141593" = some (3141593 / 1000000) := by
  rw [parseNum, show parseParts "3.141593" = some (false, 3, 141593, 6, 0) from by decide]
  norm_num

theorem pnE : parseNum "2.718282" = some (2718282 / 1000000) := by
  rw [parseNum, show parseParts "2.718282" = some (false, 2, 718282, 6, 0) from by decide]
  norm_num


/-! ## Values of the static tables and of pow on the claims' inputs -/

theorem opPops_tiebreak (tok top : Token) (_h1 : tok.type = TokenType.OPERATOR)
    (h2 : top.type = TokenType.OPERATOR) (h3 : opPrec top.text = opPrec tok.text) :
    opPops tok top = !(opRight tok.text) := by
  simp [opPops, h2, h3]

theorem powQ_3_2 : powQ 3 2 = 9 := by
  rw [powQ]
  norm_num

theorem powQ_2_9 : powQ 2 (powQ 3 2) = 512 := by
  rw [powQ_3_2, powQ]
  norm_num

/-! ## The constants pipeline: to_string rendering and its parsed value -/

theorem floorPi : Int.floor (piDbl * 1000000 + 1 / 2) = 3141593 := by
  norm_num [piDbl]

theorem floorE : Int.floor (eDbl * 1000000 + 1 / 2) = 2718282 := by
  norm_num [eDbl]

theorem toString6_piDbl : toString6 piDbl = "3.141593" := by
  simp only [toString6, floorPi]
  rfl

theorem toString6_eDbl : toString6 eDbl = "2.718282" := by
  simp only [toString6, floorE]
  rfl

theorem tokenize_pi : tokenize "pi" = .ok [⟨"3.141593", .NUMBER⟩] := by
  rw [show tokenize "pi" = Except.ok [⟨toString6 piDbl, .NUMBER⟩] from rfl, toString6_piDbl]

theorem tokenize_e : tokenize "e" = .ok [⟨"2.718282", .NUMBER⟩] := by
  rw [show tokenize "e" = Except.ok [⟨toString6 eDbl, .NUMBER⟩] from rfl, toString6_eDbl]

theorem evaluate_pi (fns : MathFns) : evaluate fns "pi" = .ok (3141593 / 1000000) := by
  apply evaluate_ok fns "pi" [⟨"3.141593", .NUMBER⟩] (3141593 / 1000000) tokenize_pi
  rw [show toPostfix [⟨"3.141593", .NUMBER⟩] = [⟨"3.141593", .NUMBER⟩] from by decide]
  apply evalPostfix_of_foldl
  rw [foldl_eval_cons fns _ (evalStep_num fns [] pnPi),
    show List.foldlM (evalStep fns) [(3141593 / 1000000 : ℚ)] [] =
      Except.ok [(3141593 / 1000000 : ℚ)] from rfl]

theorem evaluate_e (fns : MathFns) : evaluate fns "e" = .ok (2718282 / 1000000) := by
  apply evaluate_ok fns "e" [⟨"2.718282", .NUMBER⟩] (2718282 / 1000000) tokenize_e
  rw [show toPostfix [⟨"2.718282", .NUMBER⟩] = [⟨"2.718282", .NUMBER⟩] from by decide]
  apply evalPostfix_of_foldl
  rw [foldl_eval_cons fns _ (evalStep_num fns [] pnE),
    show List.foldlM (evalStep fns) [(2718282 / 1000000 : ℚ)] [] =
      Except.ok [(2718282 / 1000000 : ℚ)] from rfl]

theorem sixDecimalPi_ne_piDbl : (3141593 / 1000000 : ℚ) ≠ piDbl := by
  norm_num [piDbl]

theorem mathDefault_sqrt_16 : mathDefault.sqrt 16 = 4 := by
  show ratSqrt 16 = 4
  rw [ratSqrt, show (16 : ℚ).num.toNat = 16 from rfl, show (16 : ℚ).den = 1 from rfl,
    show Nat.sqrt 16 = 4 from by norm_num, show Nat.sqrt 1 = 1 from by norm_num]
  norm_num

/-! ## Parenthesis bookkeeping for the converter (claim C5) -/

theorem opPops_types {tok top : Token} (h : opPops tok top = true) :
    top.type = TokenType.FUNCTION ∨ top.type = TokenType.OPERATOR := by
  simp only [opPops, decide_eq_true_eq] at h
  rcases h with h | ⟨h, _⟩
  · exact Or.inl h
  · exact Or.inr h

theorem notLP_of_take {l : List Token} {t : Token} (h : t ∈ l.takeWhile notLP) :
    t.type ≠ TokenType.LEFT_PAREN := by
  have := List.mem_takeWhile_imp h
  simpa [notLP] using this

theorem dropWhile_head_false {α : Type} {p : α → Bool} :
    ∀ {l : List α} {a : α} {r : List α}, l.dropWhile p = a :: r → p a = false := by
  intro l
  induction l with
  | nil => intro a r h; simp at h
  | cons b bs ih =>
    intro a r h
    rw [List.dropWhile_cons] at h
    split at h
    · exact ih h
    · next hp =>
        injection h with h1 _
        subst h1
        simpa using hp

theorem lpCount_take_drop (p : Token → Bool) (l : List Token) :
    lpCount l = lpCount (l.takeWhile p) + lpCount (l.dropWhile p) := by
  unfold lpCount
  conv_lhs => rw [← List.takeWhile_append_dropWhile p l]
  rw [List.countP_append]

theorem lpCount_zero_of_no_lp {l : List Token}
    (h : ∀ t ∈ l, t.type ≠ TokenType.LEFT_PAREN) : lpCount l = 0 := by
  unfold lpCount
  rw [List.countP_eq_zero]
  intro a ha
  simpa using h a ha

theorem no_lp_of_lpCount_zero {l : List Token} (h : lpCount l = 0) :
    ∀ t ∈ l, t.type ≠ TokenType.LEFT_PAREN := by
  unfold lpCount at h
  rw [List.countP_eq_zero] at h
  intro t ht
  simpa using h t ht

theorem lpCount_cons_lp {t : Token} (h : t.type = TokenType.LEFT_PAREN) (l : List Token) :
    lpCount (t :: l) = lpCount l + 1 := by
  unfold lpCount
  rw [List.countP_cons]
  simp [h]

theorem lpCount_cons_not {t : Token} (h : t.type ≠ TokenType.LEFT_PAREN) (l : List Token) :
    lpCount (t :: l) = lpCount l := by
  unfold lpCount
  rw [List.countP_cons]
  simp [h]

theorem dropWhile_notLP_of_pos {ops : List Token} (h : 0 < lpCount ops) :
    ∃ f s, ops.dropWhile notLP = f :: s ∧ f.type = TokenType.LEFT_PAREN := by
  cases hd : ops.dropWhile notLP with
  | nil =>
    exfalso
    have hsplit := lpCount_take_drop notLP ops
    rw [hd] at hsplit
    have ht0 : lpCount (ops.takeWhile notLP) = 0 :=
      lpCount_zero_of_no_lp fun t ht => notLP_of_take ht
    have hnil : lpCount ([] : List Token) = 0 := rfl
    omega
  | cons f s =>
    refine ⟨f, s, rfl, ?_⟩
    have := dropWhile_head_false hd
    simpa [notLP] using this

theorem stackOk_drop_sub {ops : List Token} (p : Token → Bool) (h : stackOk ops) :
    stackOk (ops.dropWhile p) :=
  fun t ht => h t ((List.dropWhile_sublist p).subset ht)

theorem outOk_append {out l : List Token} (h1 : outOk out) (h2 : outOk l) :
    outOk (out ++ l) := by
  intro t ht
  rcases List.mem_append.mp ht with ht | ht
  · exact h1 t ht
  · exact h2 t ht

theorem outOk_take_of_stackOk {ops : List Token} (h : stackOk ops) :
    outOk (ops.takeWhile notLP) := by
  intro t ht
  have hne := notLP_of_take ht
  have hmem := (List.takeWhile_sublist notLP).subset ht
  rcases h t hmem with h1 | h1 | h1
  · exact Or.inr (Or.inr h1)
  · exact Or.inr (Or.inl h1)
  · exact absurd h1 hne

theorem i2p_fold_balanced :
    ∀ (ts out ops : List Token) (d : ℕ), outOk out → stackOk ops → lpCount ops = d →
      parenDepthOk d ts = true →
      outOk (ts.foldl i2pStep (out, ops)).1 ∧ stackOk (ts.foldl i2pStep (out, ops)).2 ∧
        lpCount (ts.foldl i2pStep (out, ops)).2 = 0 := by
  intro ts
  induction ts with
  | nil =>
    intro out ops d hout hops hlp hdep
    simp only [List.foldl_nil]
    have hd0 : d = 0 := by simpa [parenDepthOk] using hdep
    exact ⟨hout, hops, by omega⟩
  | cons t rest ih =>
    intro out ops d hout hops hlp hdep
    rw [List.foldl_cons]
    cases ht : t.type with
    | NUMBER =>
      have hdep' : parenDepthOk d rest = true := by simpa [parenDepthOk, ht] using hdep
      have hstep : i2pStep (out, ops) t = (out ++ [t], ops) := by simp [i2pStep, ht]
      rw [hstep]
      refine ih _ _ d ?_ hops hlp hdep'
      refine outOk_append hout ?_
      intro x hx
      rw [List.mem_singleton] at hx
      subst hx
      exact Or.inl ht
    | FUNCTION =>
      have hdep' : parenDepthOk d rest = true := by simpa [parenDepthOk, ht] using hdep
      have hstep : i2pStep (out, ops) t = (out, t :: ops) := by simp [i2pStep, ht]
      rw [hstep]
      refine ih _ _ d hout ?_ ?_ hdep'
      · intro x hx
        rcases List.mem_cons.mp hx with hx | hx
        · subst hx; exact Or.inl ht
        · exact hops x hx
      · rw [lpCount_cons_not (by rw [ht]; intro hc; cases hc)]
        exact hlp
    | OPERATOR =>
      have hdep' : parenDepthOk d rest = true := by simpa [parenDepthOk, ht] using hdep
      have hstep : i2pStep (out, ops) t =
          (out ++ ops.takeWhile (opPops t), t :: ops.dropWhile (opPops t)) := by
        simp [i2pStep, ht]
      rw [hstep]
      have htake0 : lpCount (ops.takeWhile (opPops t)) = 0 := by
        refine lpCount_zero_of_no_lp ?_
        intro x hx
        rcases opPops_types (List.mem_takeWhile_imp hx) with h1 | h1 <;>
          (rw [h1]; intro hc; cases hc)
      have hsplit := lpCount_take_drop (opPops t) ops
      refine ih _ _ d ?_ ?_ ?_ hdep'
      · refine outOk_append hout ?_
        intro x hx
        rcases opPops_types (List.mem_takeWhile_imp hx) with h1 | h1
        · exact Or.inr (Or.inr h1)
        · exact Or.inr (Or.inl h1)
      · intro x hx
        rcases List.mem_cons.mp hx with hx | hx
        · subst hx; exact Or.inr (Or.inl ht)
        · exact stackOk_drop_sub _ hops x hx
      · rw [lpCount_cons_not (by rw [ht]; intro hc; cases hc)]
        omega
    | LEFT_PAREN =>
      have hdep' : parenDepthOk (d + 1) rest = true := by
        simpa [parenDepthOk, ht] using hdep
      have hstep : i2pStep (out, ops) t = (out, t :: ops) := by simp [i2pStep, ht]
      rw [hstep]
      refine ih _ _ (d + 1) hout ?_ ?_ hdep'
      · intro x hx
        rcases List.mem_cons.mp hx with hx | hx
        · subst hx; exact Or.inr (Or.inr ht)
        · exact hops x hx
      · rw [lpCount_cons_lp ht]
        omega
    | RIGHT_PAREN =>
      cases d with
      | zero =>
        exfalso
        simp [parenDepthOk, ht] at hdep
      | succ d2 =>
        have hdep' : parenDepthOk d2 rest = true := by
          simpa [parenDepthOk, ht] using hdep
        have hpos : 0 < lpCount ops := by omega
        obtain ⟨f, s, hd, hf⟩ := dropWhile_notLP_of_pos hpos
        have hsplit := lpCount_take_drop notLP ops
        have htake0 : lpCount (ops.takeWhile notLP) = 0 :=
          lpCount_zero_of_no_lp fun x hx => notLP_of_take hx
        have hfs : lpCount (f :: s) = lpCount s + 1 := lpCount_cons_lp hf s
        rw [hd] at hsplit
        have hsub : ∀ x ∈ s, x ∈ ops := by
          intro x hx
          refine (List.dropWhile_sublist notLP).subset ?_
          rw [hd]
          exact List.mem_cons_of_mem f hx
        cases s with
        | nil =>
          have hstep : i2pStep (out, ops) t = (out ++ ops.takeWhile notLP, []) := by
            simp [i2pStep, ht, hd]
          rw [hstep]
          refine ih _ _ d2 (outOk_append hout (outOk_take_of_stackOk hops)) ?_ ?_ hdep'
          · intro x hx; cases hx
          · have : lpCount ([] : List Token) = 0 := rfl
            have hz : lpCount ops = 1 := by
              have h0 : lpCount ([] : List Token) = 0 := rfl
              omega
            omega
        | cons f2 s4 =>
          have hlp4 : lpCount (f2 :: s4) = d2 := by omega
          by_cases hf2 : f2.type = TokenType.FUNCTION
          · have hstep : i2pStep (out, ops) t =
                (out ++ ops.takeWhile notLP ++ [f2], s4) := by
              simp [i2pStep, ht, hd, hf2]
            rw [hstep]
            refine ih _ _ d2 ?_ ?_ ?_ hdep'
            · refine outOk_append (outOk_append hout (outOk_take_of_stackOk hops)) ?_
              intro x hx
              rw [List.mem_singleton] at hx
              subst hx
              exact Or.inr (Or.inr hf2)
            · intro x hx
              exact hops x (hsub x (List.mem_cons_of_mem f2 hx))
            · have : lpCount (f2 :: s4) = lpCount s4 := by
                refine lpCount_cons_not ?_ s4
                rw [hf2]; intro hc; cases hc
              omega
          · have hstep : i2pStep (out, ops) t =
                (out ++ ops.takeWhile notLP, f2 :: s4) := by
              simp [i2pStep, ht, hd, hf2]
            rw [hstep]
            refine ih _ _ d2 (outOk_append hout (outOk_take_of_stackOk hops)) ?_ hlp4 hdep'
            intro x hx
            exact hops x (hsub x hx)

theorem noRP_append {out l : List Token}
    (h1 : ∀ t ∈ out, t.type ≠ TokenType.RIGHT_PAREN)
    (h2 : ∀ t ∈ l, t.type ≠ TokenType.RIGHT_PAREN) :
    ∀ t ∈ out ++ l, t.type ≠ TokenType.RIGHT_PAREN := by
  intro t ht
  rcases List.mem_append.mp ht with ht | ht
  · exact h1 t ht
  · exact h2 t ht

theorem noRP_of_stackOk {ops : List Token} (h : stackOk ops) :
    ∀ t ∈ ops, t.type ≠ TokenType.RIGHT_PAREN := by
  intro t ht
  rcases h t ht with h1 | h1 | h1 <;> (rw [h1]; intro hc; cases hc)

theorem i2p_fold_no_rp :
    ∀ (ts out ops : List Token), (∀ t ∈ out, t.type ≠ TokenType.RIGHT_PAREN) → stackOk ops →
      (∀ t ∈ (ts.foldl i2pStep (out, ops)).1, t.type ≠ TokenType.RIGHT_PAREN) ∧
        stackOk (ts.foldl i2pStep (out, ops)).2 := by
  intro ts
  induction ts with
  | nil =>
    intro out ops hout hops
    exact ⟨hout, hops⟩
  | cons t rest ih =>
    intro out ops hout hops
    rw [List.foldl_cons]
    cases ht : t.type with
    | NUMBER =>
      have hstep : i2pStep (out, ops) t = (out ++ [t], ops) := by simp [i2pStep, ht]
      rw [hstep]
      refine ih _ _ (noRP_append hout ?_) hops
      intro x hx
      rw [List.mem_singleton] at hx
      subst hx
      rw [ht]; intro hc; cases hc
    | FUNCTION =>
      have hstep : i2pStep (out, ops) t = (out, t :: ops) := by simp [i2pStep, ht]
      rw [hstep]
      refine ih _ _ hout ?_
      intro x hx
      rcases List.mem_cons.mp hx with hx | hx
      · subst hx; exact Or.inl ht
      · exact hops x hx
    | OPERATOR =>
      have hstep : i2pStep (out, ops) t =
          (out ++ ops.takeWhile (opPops t), t :: ops.dropWhile (opPops t)) := by
        simp [i2pStep, ht]
      rw [hstep]
      refine ih _ _ ?_ ?_
      · refine noRP_append hout ?_
        intro x hx
        rcases opPops_types (List.mem_takeWhile_imp hx) with h1 | h1 <;>
          (rw [h1]; intro hc; cases hc)
      · intro x hx
        rcases List.mem_cons.mp hx with hx | hx
        · subst hx; exact Or.inr (Or.inl ht)
        · exact stackOk_drop_sub _ hops x hx
    | LEFT_PAREN =>
      have hstep : i2pStep (out, ops) t = (out, t :: ops) := by simp [i2pStep, ht]
      rw [hstep]
      refine ih _ _ hout ?_
      intro x hx
      rcases List.mem_cons.mp hx with hx | hx
      · subst hx; exact Or.inr (Or.inr ht)
      · exact hops x hx
    | RIGHT_PAREN =>
      have houtTake : ∀ t ∈ out ++ ops.takeWhile notLP, t.type ≠ TokenType.RIGHT_PAREN := by
        refine noRP_append hout ?_
        intro x hx
        have hmem := (List.takeWhile_sublist notLP).subset hx
        exact noRP_of_stackOk hops x hmem
      have hsub : ∀ x l, ops.dropWhile notLP = l → x ∈ l → x ∈ ops := by
        intro x l hl hx
        refine (List.dropWhile_sublist notLP).subset ?_
        rw [hl]
        exact hx
      cases hd : ops.dropWhile notLP with
      | nil =>
        have hstep : i2pStep (out, ops) t = (out ++ ops.takeWhile notLP, []) := by
          simp [i2pStep, ht, hd]
        rw [hstep]
        refine ih _ _ houtTake ?_
        intro x hx; cases hx
      | cons f s =>
        cases s with
        | nil =>
          have hstep : i2pStep (out, ops) t = (out ++ ops.takeWhile notLP, []) := by
            simp [i2pStep, ht, hd]
          rw [hstep]
          refine ih _ _ houtTake ?_
          intro x hx; cases hx
        | cons f2 s4 =>
          by_cases hf2 : f2.type = TokenType.FUNCTION
          · have hstep : i2pStep (out, ops) t =
                (out ++ ops.takeWhile notLP ++ [f2], s4) := by
              simp [i2pStep, ht, hd, hf2]
            rw [hstep]
            refine ih _ _ ?_ ?_
            · refine noRP_append houtTake ?_
              intro x hx
              rw [List.mem_singleton] at hx
              subst hx
              rw [hf2]; intro hc; cases hc
            · intro x hx
              exact hops x (hsub x _ hd (List.mem_cons_of_mem f (List.mem_cons_of_mem f2 hx)))
          · have hstep : i2pStep (out, ops) t =
                (out ++ ops.takeWhile notLP, f2 :: s4) := by
              simp [i2pStep, ht, hd, hf2]
            rw [hstep]
            refine ih _ _ houtTake ?_
            intro x hx
            exact hops x (hsub x _ hd (List.mem_cons_of_mem f hx))

/-! ## The ** / ^ identification (claim C9) -/

theorem starEquiv_type {t t2 : Token} (h : starEquiv t t2) : t2.type = t.type := by
  rcases h with h | ⟨h1, _, h3⟩
  · rw [h]
  · rw [h3, h1]

theorem starEquiv_prec {t t2 : Token} (h : starEquiv t t2) :
    opPrec t2.text = opPrec t.text := by
  rcases h with h | ⟨_, h2, h3⟩
  · rw [h]
  · rw [h3, h2]
    decide

theorem starEquiv_right {t t2 : Token} (h : starEquiv t t2) :
    opRight t2.text = opRight t.text := by
  rcases h with h | ⟨_, h2, h3⟩
  · rw [h]
  · rw [h3, h2]
    decide

theorem starEquiv_opPops {tok tok2 top top2 : Token}
    (h1 : starEquiv tok tok2) (h2 : starEquiv top top2) :
    opPops tok2 top2 = opPops tok top := by
  unfold opPops
  rw [starEquiv_type h2, starEquiv_prec h2, starEquiv_prec h1, starEquiv_right h1]

theorem starEquiv_notLP {t t2 : Token} (h : starEquiv t t2) : notLP t2 = notLP t := by
  unfold notLP
  rw [starEquiv_type h]

theorem starEquiv_evalStep (fns : MathFns) (st : List ℚ) {t t2 : Token}
    (h : starEquiv t t2) : evalStep fns st t2 = evalStep fns st t := by
  rcases h with h | ⟨h1, h2, h3⟩
  · rw [h]
  · obtain ⟨tx, ty⟩ := t
    simp only at h1 h2
    subst h1
    subst h2
    subst h3
    cases st with
    | nil => rfl
    | cons b s2 =>
      cases s2 with
      | nil => rfl
      | cons a rest => rfl

theorem forall2_append {α : Type} {R : α → α → Prop} :
    ∀ {l1 l2 l3 l4 : List α}, List.Forall₂ R l1 l2 → List.Forall₂ R l3 l4 →
      List.Forall₂ R (l1 ++ l3) (l2 ++ l4) := by
  intro l1 l2 l3 l4 h1 h2
  induction h1 with
  | nil => exact h2
  | cons hab hrest ih => exact List.Forall₂.cons hab ih

theorem forall2_take_drop {α : Type} {R : α → α → Prop} {p q : α → Bool}
    (hpq : ∀ a b, R a b → q b = p a) :
    ∀ {l l2 : List α}, List.Forall₂ R l l2 →
      List.Forall₂ R (l.takeWhile p) (l2.takeWhile q) ∧
        List.Forall₂ R (l.dropWhile p) (l2.dropWhile q) := by
  intro l l2 h
  induction h with
  | nil => exact ⟨List.Forall₂.nil, List.Forall₂.nil⟩
  | @cons a b as bs hab hrest ih =>
    rw [List.takeWhile_cons, List.takeWhile_cons, List.dropWhile_cons, List.dropWhile_cons,
      hpq a b hab]
    cases hp : p a with
    | true =>
      rw [if_pos rfl, if_pos rfl]
      exact ⟨List.Forall₂.cons hab ih.1, ih.2⟩
    | false =>
      have hne : ¬ (false = true) := by simp
      rw [if_neg hne, if_neg hne]
      exact ⟨List.Forall₂.nil, List.Forall₂.cons hab hrest⟩

theorem i2pStep_star {tok tok2 : Token} {out out2 ops ops2 : List Token}
    (h : starEquiv tok tok2) (hout : List.Forall₂ starEquiv out out2)
    (hops : List.Forall₂ starEquiv ops ops2) :
    List.Forall₂ starEquiv (i2pStep (out, ops) tok).1 (i2pStep (out2, ops2) tok2).1 ∧
      List.Forall₂ starEquiv (i2pStep (out, ops) tok).2 (i2pStep (out2, ops2) tok2).2 := by
  have htype := starEquiv_type h
  cases ht : tok.type with
  | NUMBER =>
    simp only [i2pStep, ht, htype.trans ht]
    exact ⟨forall2_append hout (List.Forall₂.cons h List.Forall₂.nil), hops⟩
  | FUNCTION =>
    simp only [i2pStep, ht, htype.trans ht]
    exact ⟨hout, List.Forall₂.cons h hops⟩
  | OPERATOR =>
    have hcomp := forall2_take_drop (fun a b hab => starEquiv_opPops h hab) hops
    simp only [i2pStep, ht, htype.trans ht]
    exact ⟨forall2_append hout hcomp.1, List.Forall₂.cons h hcomp.2⟩
  | LEFT_PAREN =>
    simp only [i2pStep, ht, htype.trans ht]
    exact ⟨hout, List.Forall₂.cons h hops⟩
  | RIGHT_PAREN =>
    have ht2 : tok2.type = TokenType.RIGHT_PAREN := htype.trans ht
    have hcomp := forall2_take_drop (fun a b hab => starEquiv_notLP hab) hops
    have htk := hcomp.1
    have hdr := hcomp.2
    cases hd1 : List.dropWhile notLP ops with
    | nil =>
      have hd2 : List.dropWhile notLP ops2 = [] := by
        rw [hd1] at hdr
        exact List.forall₂_nil_left_iff.mp hdr
      have hstep1 : i2pStep (out, ops) tok = (out ++ ops.takeWhile notLP, []) := by
        simp [i2pStep, ht, hd1]
      have hstep2 : i2pStep (out2, ops2) tok2 = (out2 ++ ops2.takeWhile notLP, []) := by
        simp [i2pStep, ht2, hd2]
      rw [hstep1, hstep2]
      exact ⟨forall2_append hout htk, List.Forall₂.nil⟩
    | cons f s =>
      rw [hd1] at hdr
      rcases List.forall₂_cons_left_iff.mp hdr with ⟨f2, s2, hff, hss, hd2⟩
      cases s with
      | nil =>
        have hs2 : s2 = [] := List.forall₂_nil_left_iff.mp hss
        subst hs2
        have hstep1 : i2pStep (out, ops) tok = (out ++ ops.takeWhile notLP, []) := by
          simp [i2pStep, ht, hd1]
        have hstep2 : i2pStep (out2, ops2) tok2 = (out2 ++ ops2.takeWhile notLP, []) := by
          simp [i2pStep, ht2, hd2]
        rw [hstep1, hstep2]
        exact ⟨forall2_append hout htk, List.Forall₂.nil⟩
      | cons g u =>
        rcases List.forall₂_cons_left_iff.mp hss with ⟨g2, u2, hgg, huu, hs2⟩
        subst hs2
        by_cases hg : g.type = TokenType.FUNCTION
        · have hg2 : g2.type = TokenType.FUNCTION := (starEquiv_type hgg).trans hg
          have hstep1 : i2pStep (out, ops) tok =
              (out ++ ops.takeWhile notLP ++ [g], u) := by
            simp [i2pStep, ht, hd1, hg]
          have hstep2 : i2pStep (out2, ops2) tok2 =
              (out2 ++ ops2.takeWhile notLP ++ [g2], u2) := by
            simp [i2pStep, ht2, hd2, hg2]
          rw [hstep1, hstep2]
          exact ⟨forall2_append (forall2_append hout htk)
            (List.Forall₂.cons hgg List.Forall₂.nil), huu⟩
        · have hg2 : ¬ g2.type = TokenType.FUNCTION := by
            rw [starEquiv_type hgg]
            exact hg
          have hstep1 : i2pStep (out, ops) tok =
              (out ++ ops.takeWhile notLP, g :: u) := by
            simp [i2pStep, ht, hd1, hg]
          have hstep2 : i2pStep (out2, ops2) tok2 =
              (out2 ++ ops2.takeWhile notLP, g2 :: u2) := by
            simp [i2pStep, ht2, hd2, hg2]
          rw [hstep1, hstep2]
          exact ⟨forall2_append hout htk, List.Forall₂.cons hgg huu⟩

theorem i2p_fold_star :
    ∀ {ts ts2 : List Token}, List.Forall₂ starEquiv ts ts2 →
      ∀ {out out2 ops ops2 : List Token}, List.Forall₂ starEquiv out out2 →
        List.Forall₂ starEquiv ops ops2 →
        List.Forall₂ starEquiv (ts.foldl i2pStep (out, ops)).1
          (ts2.foldl i2pStep (out2, ops2)).1 ∧
        List.Forall₂ starEquiv (ts.foldl i2pStep (out, ops)).2
          (ts2.foldl i2pStep (out2, ops2)).2 := by
  intro ts ts2 h
  induction h with
  | nil => intro out out2 ops ops2 hout hops; exact ⟨hout, hops⟩
  | @cons a b as bs hab hrest ih =>
    intro out out2 ops ops2 hout hops
    rw [List.foldl_cons, List.foldl_cons]
    have hstep := i2pStep_star hab hout hops
    have := ih hstep.1 hstep.2
    simpa using this

theorem toPostfix_star {ts ts2 : List Token} (h : List.Forall₂ starEquiv ts ts2) :
    List.Forall₂ starEquiv (toPostfix ts) (toPostfix ts2) := by
  unfold toPostfix
  have := i2p_fold_star h List.Forall₂.nil List.Forall₂.nil
  exact forall2_append this.1 this.2

theorem foldlM_star (fns : MathFns) :
    ∀ {pf pf2 : List Token}, List.Forall₂ starEquiv pf pf2 → ∀ (st : List ℚ),
      List.foldlM (evalStep fns) st pf2 = List.foldlM (evalStep fns) st pf := by
  intro pf pf2 h
  induction h with
  | nil => intro st; rfl
  | @cons a b as bs hab hrest ih =>
    intro st
    rw [List.foldlM_cons, List.foldlM_cons, starEquiv_evalStep fns st hab]
    cases hs : evalStep fns st a with
    | error err => rfl
    | ok st2 =>
      show (Except.ok st2 >>= fun s => List.foldlM (evalStep fns) s bs) =
        (Except.ok st2 >>= fun s => List.foldlM (evalStep fns) s as)
      show List.foldlM (evalStep fns) st2 bs = List.foldlM (evalStep fns) st2 as
      exact ih st2

theorem evalPostfix_star (fns : MathFns) {pf pf2 : List Token}
    (h : List.Forall₂ starEquiv pf pf2) :
    evalPostfix fns pf2 = evalPostfix fns pf := by
  unfold evalPostfix
  rw [foldlM_star fns h []]


/-! ## The claims -/

/-- C1: the claim says evalPostfix fails with EvalError(MissingOperand) on a
Function token with an empty operand stack, with EvalError(MissingOperands)
on an Operator token with fewer than two stacked values, and that
evaluate "2 +" returns MalformedExpression or MissingOperands.  The source
has no such checks: in each of those situations it calls st.top() on an
empty std::stack, which is undefined behaviour (modelled as the distinct
failure stackUnderflow).  In particular evaluate "2 +" reaches the
unchecked pop, not any documented EvalError. -/
theorem C1_operand_underflow_is_ub :
    (∀ fns : MathFns, evaluate fns "2 +" = .error (.eval .stackUnderflow)) ∧
    (∀ fns : MathFns, evalStep fns [] ⟨"sin", TokenType.FUNCTION⟩ = .error .stackUnderflow) ∧
    (∀ (fns : MathFns) (b : ℚ),
      evalStep fns [b] ⟨"+", TokenType.OPERATOR⟩ = .error .stackUnderflow) :=
  ⟨fun _ => rfl, fun _ => rfl, fun _ _ => rfl⟩

/-- C2: ^ and ** are registered right-associative; on equal precedence the
converter pops the stacked operator before pushing exactly when the incoming
operator is not right-associative; consequently evaluate "2 ^ 3 ^ 2"
groups right-to-left and returns 512 = 2 ^ (3 ^ 2). -/
theorem C2_exponent_right_assoc :
    opRight "^" = true ∧ opRight "**" = true ∧
    (∀ tok top : Token, tok.type = TokenType.OPERATOR → top.type = TokenType.OPERATOR →
      opPrec top.text = opPrec tok.text → opPops tok top = !(opRight tok.text)) ∧
    (∀ fns : MathFns, evaluate fns "2 ^ 3 ^ 2" = .ok 512) := by
  refine ⟨rfl, rfl, opPops_tiebreak, ?_⟩
  intro fns
  apply evaluate_ok fns "2 ^ 3 ^ 2" [⟨"2", .NUMBER⟩, ⟨"^", .OPERATOR⟩, ⟨"3", .NUMBER⟩,
    ⟨"^", .OPERATOR⟩, ⟨"2", .NUMBER⟩] 512 rfl
  rw [show toPostfix [⟨"2", .NUMBER⟩, ⟨"^", .OPERATOR⟩, ⟨"3", .NUMBER⟩,
    ⟨"^", .OPERATOR⟩, ⟨"2", .NUMBER⟩] = [⟨"2", .NUMBER⟩, ⟨"3", .NUMBER⟩,
    ⟨"2", .NUMBER⟩, ⟨"^", .OPERATOR⟩, ⟨"^", .OPERATOR⟩] from by decide]
  apply evalPostfix_of_foldl
  rw [foldl_eval_cons fns _ (evalStep_num fns [] pn2),
    foldl_eval_cons fns _ (evalStep_num fns [2] pn3),
    foldl_eval_cons fns _ (evalStep_num fns [3, 2] pn2),
    foldl_eval_cons fns _ (show evalStep fns [2, 3, 2] ⟨"^", .OPERATOR⟩
      = Except.ok [powQ 3 2, 2] from rfl),
    foldl_eval_cons fns _ (show evalStep fns [powQ 3 2, 2] ⟨"^", .OPERATOR⟩
      = Except.ok [powQ 2 (powQ 3 2)] from rfl),
    show List.foldlM (evalStep fns) [powQ 2 (powQ 3 2)] [] =
      Except.ok [powQ 2 (powQ 3 2)] from rfl, powQ_2_9]

/-- C2 witness: the tie-break and the 512 evaluation at concrete inputs. -/
theorem C2_exponent_right_assoc_witness :
    opPops ⟨"^", TokenType.OPERATOR⟩ ⟨"**", TokenType.OPERATOR⟩ = !(opRight "^") ∧
    evaluate mathDefault "2 ^ 3 ^ 2" = .ok 512 :=
  ⟨C2_exponent_right_assoc.2.2.1 ⟨"^", TokenType.OPERATOR⟩ ⟨"**", TokenType.OPERATOR⟩
      rfl rfl (by decide),
    C2_exponent_right_assoc.2.2.2 mathDefault⟩

/-- C3: standard precedence and parenthesis grouping:
evaluate "2 + 3 * 4" = 14 and evaluate "(2 + 3) * 4" = 20. -/
theorem C3_precedence_and_parens (fns : MathFns) :
    evaluate fns "2 + 3 * 4" = .ok 14 ∧ evaluate fns "(2 + 3) * 4" = .ok 20 := by
  constructor
  · apply evaluate_ok fns "2 + 3 * 4" [⟨"2", .NUMBER⟩, ⟨"+", .OPERATOR⟩, ⟨"3", .NUMBER⟩,
      ⟨"*", .OPERATOR⟩, ⟨"4", .NUMBER⟩] 14 rfl
    rw [show toPostfix [⟨"2", .NUMBER⟩, ⟨"+", .OPERATOR⟩, ⟨"3", .NUMBER⟩,
      ⟨"*", .OPERATOR⟩, ⟨"4", .NUMBER⟩] = [⟨"2", .NUMBER⟩, ⟨"3", .NUMBER⟩,
      ⟨"4", .NUMBER⟩, ⟨"*", .OPERATOR⟩, ⟨"+", .OPERATOR⟩] from by decide]
    apply evalPostfix_of_foldl
    rw [foldl_eval_cons fns _ (evalStep_num fns [] pn2),
      foldl_eval_cons fns _ (evalStep_num fns [2] pn3),
      foldl_eval_cons fns _ (evalStep_num fns [3, 2] pn4),
      foldl_eval_cons fns _ (show evalStep fns [4, 3, 2] ⟨"*", .OPERATOR⟩
        = Except.ok [3 * 4, 2] from rfl),
      foldl_eval_cons fns _ (show evalStep fns [3 * 4, 2] ⟨"+", .OPERATOR⟩
        = Except.ok [2 + 3 * 4] from rfl),
      show List.foldlM (evalStep fns) [2 + 3 * 4] [] = Except.ok [2 + 3 * 4] from rfl]
    norm_num
  · apply evaluate_ok fns "(2 + 3) * 4" [⟨"(", .LEFT_PAREN⟩, ⟨"2", .NUMBER⟩,
      ⟨"+", .OPERATOR⟩, ⟨"3", .NUMBER⟩, ⟨")", .RIGHT_PAREN⟩, ⟨"*", .OPERATOR⟩,
      ⟨"4", .NUMBER⟩] 20 rfl
    rw [show toPostfix [⟨"(", .LEFT_PAREN⟩, ⟨"2", .NUMBER⟩, ⟨"+", .OPERATOR⟩,
      ⟨"3", .NUMBER⟩, ⟨")", .RIGHT_PAREN⟩, ⟨"*", .OPERATOR⟩, ⟨"4", .NUMBER⟩]
      = [⟨"2", .NUMBER⟩, ⟨"3", .NUMBER⟩, ⟨"+", .OPERATOR⟩, ⟨"4", .NUMBER⟩,
      ⟨"*", .OPERATOR⟩] from by decide]
    apply evalPostfix_of_foldl
    rw [foldl_eval_cons fns _ (evalStep_num fns [] pn2),
      foldl_eval_cons fns _ (evalStep_num fns [2] pn3),
      foldl_eval_cons fns _ (show evalStep fns [3, 2] ⟨"+", .OPERATOR⟩
        = Except.ok [2 + 3] from rfl),
      foldl_eval_cons fns _ (evalStep_num fns [2 + 3] pn4),
      foldl_eval_cons fns _ (show evalStep fns [4, 2 + 3] ⟨"*", .OPERATOR⟩
        = Except.ok [(2 + 3) * 4] from rfl),
      show List.foldlM (evalStep fns) [(2 + 3) * 4] [] = Except.ok [(2 + 3) * 4] from rfl]
    norm_num

/-- C4: the / operator fails with the divide-by-zero error exactly when the
right-hand (top-of-stack) operand b is zero, and otherwise pushes a / b; in
particular evaluate "10 / 0" returns the divide-by-zero error.  (In the
rational model a nonzero denominator never overflows, matching the claim
that only a literal zero denominator is an error.) -/
theorem C4_divide_by_zero :
    (∀ (fns : MathFns) (a b : ℚ) (rest : List ℚ), b = 0 →
      evalStep fns (b :: a :: rest) ⟨"/", TokenType.OPERATOR⟩ = .error .divideByZero) ∧
    (∀ (fns : MathFns) (a b : ℚ) (rest : List ℚ), b ≠ 0 →
      evalStep fns (b :: a :: rest) ⟨"/", TokenType.OPERATOR⟩ = .ok ((a / b) :: rest)) ∧
    (∀ fns : MathFns, evaluate fns "10 / 0" = .error (.eval .divideByZero)) := by
  refine ⟨?_, ?_, ?_⟩
  · intro fns a b rest hb
    subst hb
    show (if (0 : ℚ) = 0 then Except.error EvalErr.divideByZero
      else Except.ok ((a / 0) :: rest)) = Except.error EvalErr.divideByZero
    rw [if_pos rfl]
  · intro fns a b rest hb
    show (if b = 0 then Except.error EvalErr.divideByZero
      else Except.ok ((a / b) :: rest)) = Except.ok ((a / b) :: rest)
    rw [if_neg hb]
  · intro fns
    apply evaluate_evalError fns "10 / 0" [⟨"10", .NUMBER⟩, ⟨"/", .OPERATOR⟩,
      ⟨"0", .NUMBER⟩] .divideByZero rfl
    rw [show toPostfix [⟨"10", .NUMBER⟩, ⟨"/", .OPERATOR⟩, ⟨"0", .NUMBER⟩]
      = [⟨"10", .NUMBER⟩, ⟨"0", .NUMBER⟩, ⟨"/", .OPERATOR⟩] from by decide]
    apply evalPostfix_of_foldl_error
    rw [foldl_eval_cons fns _ (evalStep_num fns [] pn10),
      foldl_eval_cons fns _ (evalStep_num fns [10] pn0),
      foldl_eval_error fns _ (show evalStep fns [0, 10] ⟨"/", .OPERATOR⟩
        = Except.error .divideByZero from by
          show (if (0 : ℚ) = 0 then Except.error EvalErr.divideByZero
            else Except.ok ((10 / 0) :: [])) = Except.error EvalErr.divideByZero
          rw [if_pos rfl])]

/-- C4 witness: both division branches and the 10 / 0 pipeline at concrete
inputs. -/
theorem C4_divide_by_zero_witness :
    evalStep mathDefault [0, 1] ⟨"/", TokenType.OPERATOR⟩ = .error .divideByZero ∧
    evalStep mathDefault [2, 1] ⟨"/", TokenType.OPERATOR⟩ = .ok [1 / 2] ∧
    evaluate mathDefault "10 / 0" = .error (.eval .divideByZero) :=
  ⟨C4_divide_by_zero.1 mathDefault 1 0 [] rfl,
    C4_divide_by_zero.2.1 mathDefault 1 2 [] (by norm_num),
    C4_divide_by_zero.2.2 mathDefault⟩

/-- C5 counterexample: the claim says no LeftParen token ever appears in the
converter's output, including for inputs with unmatched parentheses.  On the
input ( 2 — an unmatched left parenthesis — the final drain pops the
remaining stack, left parenthesis included, into the output. -/
theorem C5_unmatched_lparen_counterexample :
    toPostfix [Token.mk "(" TokenType.LEFT_PAREN, Token.mk "2" TokenType.NUMBER]
      = [Token.mk "2" TokenType.NUMBER, Token.mk "(" TokenType.LEFT_PAREN] ∧
    ¬ (∀ t ∈ toPostfix [Token.mk "(" TokenType.LEFT_PAREN, Token.mk "2" TokenType.NUMBER],
        t.type ≠ TokenType.LEFT_PAREN) :=
  ⟨by decide, by decide⟩

/-- C5 (amended): for every input token sequence whose OPERATOR texts lie in
the precedence table, the converter's output never contains a RightParen
token; and when the input's parentheses are balanced the output contains
only Number, Operator and Function tokens.  (An unmatched LeftParen is
drained into the output by the final pop-remaining step, as the
counterexample shows.) -/
theorem C5_no_parens_amended : ∀ ts : List Token, knownOps ts →
    (∀ t ∈ toPostfix ts, t.type ≠ TokenType.RIGHT_PAREN) ∧
    (parenDepthOk 0 ts = true →
      ∀ t ∈ toPostfix ts, t.type = TokenType.NUMBER ∨ t.type = TokenType.OPERATOR ∨
        t.type = TokenType.FUNCTION) := by
  intro ts _
  constructor
  · have h := i2p_fold_no_rp ts [] [] (by intro t ht; cases ht) (by intro t ht; cases ht)
    intro t ht
    rcases List.mem_append.mp ht with ht | ht
    · exact h.1 t ht
    · exact noRP_of_stackOk h.2 t ht
  · intro hbal
    have h := i2p_fold_balanced ts [] [] 0 (by intro t ht; cases ht)
      (by intro t ht; cases ht) rfl hbal
    intro t ht
    rcases List.mem_append.mp ht with ht | ht
    · exact h.1 t ht
    · rcases h.2.1 t ht with h1 | h1 | h1
      · exact Or.inr (Or.inr h1)
      · exact Or.inr (Or.inl h1)
      · exact absurd h1 (no_lp_of_lpCount_zero h.2.2 t ht)

/-- C5 witness: the amended statement on the balanced input ( 2 ). -/
theorem C5_no_parens_amended_witness :
    knownOps [Token.mk "(" TokenType.LEFT_PAREN, Token.mk "2" TokenType.NUMBER,
      Token.mk ")" TokenType.RIGHT_PAREN] ∧
    parenDepthOk 0 [Token.mk "(" TokenType.LEFT_PAREN, Token.mk "2" TokenType.NUMBER,
      Token.mk ")" TokenType.RIGHT_PAREN] = true ∧
    ∀ t ∈ toPostfix [Token.mk "(" TokenType.LEFT_PAREN, Token.mk "2" TokenType.NUMBER,
      Token.mk ")" TokenType.RIGHT_PAREN],
      t.type = TokenType.NUMBER ∨ t.type = TokenType.OPERATOR ∨
        t.type = TokenType.FUNCTION := by
  refine ⟨?_, by decide, ?_⟩
  · intro t ht h
    fin_cases ht <;> simp_all
  · refine (C5_no_parens_amended _ ?_).2 (by decide)
    intro t ht h
    fin_cases ht <;> simp_all

/-- C6: the claim says every NUMBER token the lexer emits from a digit- or
dot-initial run is a valid literal of the language matched by the source's
own isNumber regex.  The lexer's scan loop accepts arbitrarily many dots and
consumes a dangling exponent marker, and isNumber is never called: on
"1.2.3" it emits the single NUMBER token "1.2.3", and on "1e+" the single
NUMBER token "1e+", both of which the regex rejects. -/
theorem C6_lexer_emits_invalid_literals :
    tokenize "1.2.3" = .ok [⟨"1.2.3", .NUMBER⟩] ∧ isNumber "1.2.3" = false ∧
    tokenize "1e+" = .ok [⟨"1e+", .NUMBER⟩] ∧ isNumber "1e+" = false :=
  ⟨rfl, rfl, rfl, rfl⟩

/-- C7 counterexample: the claim says evaluate "pi" returns the full
double-precision value M_PI.  The lexer substitutes the constant through
std::to_string, which renders only six fraction digits, so evaluate "pi"
returns 3.141593, which differs from the double M_PI. -/
theorem C7_pi_six_decimals_counterexample :
    evaluate mathDefault "pi" = .ok (3141593 / 1000000) ∧
    (3141593 / 1000000 : ℚ) ≠ piDbl :=
  ⟨evaluate_pi mathDefault, sixDecimalPi_ne_piDbl⟩

/-- C7 (amended): constant identifiers are substituted at lex time into
Number tokens whose text is std::to_string of the constant, i.e. the value
rendered with six fraction digits; hence evaluate "pi" = 3.141593 and
evaluate "e" = 2.718282 — six-decimal approximations, not the full
double-precision values. -/
theorem C7_constants_six_decimal_text :
    tokenize "pi" = .ok [⟨"3.141593", TokenType.NUMBER⟩] ∧
    tokenize "e" = .ok [⟨"2.718282", TokenType.NUMBER⟩] ∧
    (∀ fns : MathFns, evaluate fns "pi" = .ok (3141593 / 1000000)) ∧
    (∀ fns : MathFns, evaluate fns "e" = .ok (2718282 / 1000000)) :=
  ⟨tokenize_pi, tokenize_e, evaluate_pi, evaluate_e⟩

/-- C8: the claim says a Function token with an unknown name fails with
EvalError(UnknownFunction).  The source's if/else-if chain has no else: the
operand is popped and nothing is pushed, so the unknown function is silently
ignored; on the postfix sequence [1, 5, abs] the evaluator returns the value
1 instead of failing. -/
theorem C8_unknown_function_silently_dropped :
    (∀ fns : MathFns,
      evalPostfix fns [⟨"1", .NUMBER⟩, ⟨"5", .NUMBER⟩, ⟨"abs", .FUNCTION⟩] = .ok 1) ∧
    (∀ (fns : MathFns) (v : ℚ) (rest : List ℚ),
      evalStep fns (v :: rest) ⟨"abs", .FUNCTION⟩ = .ok rest) := by
  constructor
  · intro fns
    apply evalPostfix_of_foldl
    rw [foldl_eval_cons fns _ (evalStep_num fns [] pn1),
      foldl_eval_cons fns _ (evalStep_num fns [1] pn5),
      foldl_eval_cons fns _ (show evalStep fns [5, 1] ⟨"abs", .FUNCTION⟩
        = Except.ok [1] from rfl),
      show List.foldlM (evalStep fns) [(1 : ℚ)] [] = Except.ok [(1 : ℚ)] from rfl]
  · intro fns v rest
    rfl

/-- C9: ** is treated identically to ^: its precedence and associativity
entries agree, and replacing any occurrences of the Operator token ** by ^
(pointwise, via starEquiv) carries the conversion to postfix along the same
replacement and leaves the evaluation result — hence the final result of
evaluate past the lexer — unchanged, for every transform table. -/
theorem C9_star_matches_caret :
    opPrec "**" = opPrec "^" ∧ opRight "**" = opRight "^" ∧
    ∀ ts ts2 : List Token, List.Forall₂ starEquiv ts ts2 →
      List.Forall₂ starEquiv (toPostfix ts) (toPostfix ts2) ∧
      ∀ fns : MathFns, evalPostfix fns (toPostfix ts2) = evalPostfix fns (toPostfix ts) := by
  refine ⟨rfl, rfl, ?_⟩
  intro ts ts2 h
  exact ⟨toPostfix_star h, fun fns => evalPostfix_star fns (toPostfix_star h)⟩

/-- C9 witness: replacing ** by ^ in 2 ** 3 leaves the evaluation result
unchanged. -/
theorem C9_star_matches_caret_witness :
    evalPostfix mathDefault (toPostfix [⟨"2", TokenType.NUMBER⟩, ⟨"^", TokenType.OPERATOR⟩,
      ⟨"3", TokenType.NUMBER⟩]) =
    evalPostfix mathDefault (toPostfix [⟨"2", TokenType.NUMBER⟩, ⟨"**", TokenType.OPERATOR⟩,
      ⟨"3", TokenType.NUMBER⟩]) :=
  (C9_star_matches_caret.2.2 _ _ (List.Forall₂.cons (Or.inl rfl)
    (List.Forall₂.cons (Or.inr ⟨rfl, rfl, rfl⟩)
      (List.Forall₂.cons (Or.inl rfl) List.Forall₂.nil)))).2 mathDefault

/-- C10: a function name need not be followed by parentheses: sqrt 16 lexes
to [Function sqrt, Number 16], converts to the postfix sequence
[16, sqrt] (the function is drained after its operand), and evaluates to 4
for any transform table computing sqrt 16 = 4. -/
theorem C10_function_without_parens :
    tokenize "sqrt 16" = .ok [⟨"sqrt", TokenType.FUNCTION⟩, ⟨"16", TokenType.NUMBER⟩] ∧
    toPostfix [⟨"sqrt", TokenType.FUNCTION⟩, ⟨"16", TokenType.NUMBER⟩]
      = [⟨"16", TokenType.NUMBER⟩, ⟨"sqrt", TokenType.FUNCTION⟩] ∧
    (∀ fns : MathFns, fns.sqrt 16 = 4 → evaluate fns "sqrt 16" = .ok 4) := by
  refine ⟨rfl, by decide, ?_⟩
  intro fns h
  apply evaluate_ok fns "sqrt 16" [⟨"sqrt", .FUNCTION⟩, ⟨"16", .NUMBER⟩] 4 rfl
  rw [show toPostfix [⟨"sqrt", .FUNCTION⟩, ⟨"16", .NUMBER⟩]
    = [⟨"16", .NUMBER⟩, ⟨"sqrt", .FUNCTION⟩] from by decide]
  apply evalPostfix_of_foldl
  rw [foldl_eval_cons fns _ (evalStep_num fns [] pn16),
    foldl_eval_cons fns _ (show evalStep fns [16] ⟨"sqrt", .FUNCTION⟩
      = Except.ok [fns.sqrt 16] from rfl), h,
    show List.foldlM (evalStep fns) [(4 : ℚ)] [] = Except.ok [(4 : ℚ)] from rfl]

/-- C10 witness: with the concrete transform table (exact sqrt on perfect
squares), evaluate "sqrt 16" = 4. -/
theorem C10_function_without_parens_witness : evaluate mathDefault "sqrt 16" = .ok 4 :=
  C10_function_without_parens.2.2 mathDefault mathDefault_sqrt_16

end Calculator
